import Mathlib

/-!
Shallow embedding of the geometric core of `frust_ngon.py` (a lampshade /
frustum planning tool).  Machine floating point is modelled by the real
numbers; the functions below mirror the Python source line by line:

* `get_face_vertices`  — source lines 28–36
* `get_face_midpoints` — source lines 38–46 (note the literal `pi / 5` phase)
* `get_inradius`       — source lines 48–51
* `COS36`, `r_bot`, `r_top`, `z_int`, `z_vis` — the solver in `update_plot`,
  source lines 59–66
* `ring_edge_len`      — the edge-length computation of source lines 78–79
* `report`             — the feedback branch of source lines 104–112
-/

namespace FrustNgon

/-- A point in 3-space, as the `[x, y, z]` rows produced by the source. -/
structure P3 where
  x : ℝ
  y : ℝ
  z : ℝ

/-- Total height of the shade: module constant `f_h = 5.0` (source line 20). -/
noncomputable def f_h : ℝ := 5

/-- Source lines 28–36: `np.linspace(0, 2*pi, sides+1)[:-1]` gives the angles
`2*pi*i/sides` for `i = 0 .. sides-1`; each is mapped to
`[radius*cos a, radius*sin a, z]`. -/
noncomputable def get_face_vertices (radius z : ℝ) (sides : ℕ) : List P3 :=
  (List.range sides).map fun (i : ℕ) =>
    ⟨radius * Real.cos (2 * Real.pi * i / sides),
     radius * Real.sin (2 * Real.pi * i / sides), z⟩

/-- Source lines 38–46: same angles as `get_face_vertices` but shifted by the
literal constant `np.pi / 5`, independent of `sides`. -/
noncomputable def get_face_midpoints (inradius z : ℝ) (sides : ℕ) : List P3 :=
  (List.range sides).map fun (i : ℕ) =>
    ⟨inradius * Real.cos (2 * Real.pi * i / sides + Real.pi / 5),
     inradius * Real.sin (2 * Real.pi * i / sides + Real.pi / 5), z⟩

/-- Modelled from the spec (§4.1 `getFaceMidpoints` with the *correct* phase
`pi/n`): what the spec says the midpoint generator must produce.  Kept as a
separate definition so the code's fixed `pi/5` phase can be compared with it. -/
noncomputable def spec_face_midpoints (inradius z : ℝ) (sides : ℕ) : List P3 :=
  (List.range sides).map fun (i : ℕ) =>
    ⟨inradius * Real.cos (2 * Real.pi * i / sides + Real.pi / sides),
     inradius * Real.sin (2 * Real.pi * i / sides + Real.pi / sides), z⟩

/-- Source lines 48–51: `(s_len/2)/np.tan(np.radians(180/sides))`; in radians
the argument is exactly `pi/sides`. -/
noncomputable def get_inradius (s_len : ℝ) (sides : ℕ) : ℝ :=
  s_len / 2 / Real.tan (Real.pi / sides)

/-- Indexing helper: `l[i]` with the numpy out-of-range behaviour irrelevant
here (claims only index within bounds); out of range we return the origin. -/
def nth (l : List P3) (i : ℕ) : P3 :=
  l.getD i ⟨0, 0, 0⟩

/-- Source line 78 (and 79): planar distance between ring points 0 and 1. -/
noncomputable def ring_edge_len (v : List P3) : ℝ :=
  Real.sqrt (((nth v 0).x - (nth v 1).x) ^ 2 + ((nth v 0).y - (nth v 1).y) ^ 2)

/-- Source line 59: `np.cos(np.radians(180 / sides))`, i.e. `cos (pi/sides)`. -/
noncomputable def COS36 (sides : ℕ) : ℝ :=
  Real.cos (Real.pi / sides)

/-- Source line 60, first component: bottom apothem `f_bot_R * COS36`. -/
noncomputable def r_bot (f_bot_R : ℝ) (sides : ℕ) : ℝ :=
  f_bot_R * COS36 sides

/-- Source line 60, second component: top apothem `f_top_R * COS36`. -/
noncomputable def r_top (f_top_R : ℝ) (sides : ℕ) : ℝ :=
  f_top_R * COS36 sides

/-- Source lines 61–64: the intersection solve.  If the apothem gap exceeds
`1e-5` the height is interpolated, otherwise the sentinel `-1` is returned. -/
noncomputable def z_int (f_bot_R f_top_R c_r : ℝ) (sides : ℕ) : ℝ :=
  if |r_top f_top_R sides - r_bot f_bot_R sides| > 1e-5 then
    (c_r - r_bot f_bot_R sides) * (f_h / (r_top f_top_R sides - r_bot f_bot_R sides))
  else -1

/-- Source line 66: `np.clip(z_int, 0, f_h)`. -/
noncomputable def z_vis (f_bot_R f_top_R c_r : ℝ) (sides : ℕ) : ℝ :=
  min (max (z_int f_bot_R f_top_R c_r sides) 0) f_h

/-- The two possible user-visible outcomes of `update_plot` (lines 104–112):
a valid-intersection title carrying the solved height, or the fixed
"No Side Intersection" title. -/
inductive Report where
  | intersection (height : ℝ) : Report
  | noSide : Report

/-- Source lines 104–112: the feedback branch tests `0 <= z_int <= f_h` on the
unclamped `z_int`. -/
noncomputable def report (f_bot_R f_top_R c_r : ℝ) (sides : ℕ) : Report :=
  if 0 ≤ z_int f_bot_R f_top_R c_r sides ∧ z_int f_bot_R f_top_R c_r sides ≤ f_h then
    Report.intersection (z_int f_bot_R f_top_R c_r sides)
  else
    Report.noSide

/-! ### Helper lemmas -/

lemma nth_get_face_vertices (radius z : ℝ) (sides : ℕ) (i : ℕ) (h : i < sides) :
    nth (get_face_vertices radius z sides) i =
      ⟨radius * Real.cos (2 * Real.pi * i / sides),
       radius * Real.sin (2 * Real.pi * i / sides), z⟩ := by
  have hlen : i < ((List.range sides).map fun (i : ℕ) =>
      (⟨radius * Real.cos (2 * Real.pi * i / sides),
        radius * Real.sin (2 * Real.pi * i / sides), z⟩ : P3)).length := by
    simpa using h
  simp [nth, get_face_vertices, List.getD_eq_getElem?_getD, List.getElem?_eq_getElem hlen, h]

lemma nth_get_face_midpoints (inradius z : ℝ) (sides : ℕ) (i : ℕ) (h : i < sides) :
    nth (get_face_midpoints inradius z sides) i =
      ⟨inradius * Real.cos (2 * Real.pi * i / sides + Real.pi / 5),
       inradius * Real.sin (2 * Real.pi * i / sides + Real.pi / 5), z⟩ := by
  have hlen : i < ((List.range sides).map fun (i : ℕ) =>
      (⟨inradius * Real.cos (2 * Real.pi * i / sides + Real.pi / 5),
        inradius * Real.sin (2 * Real.pi * i / sides + Real.pi / 5), z⟩ : P3)).length := by
    simpa using h
  simp [nth, get_face_midpoints, List.getD_eq_getElem?_getD, List.getElem?_eq_getElem hlen, h]

lemma nth_spec_face_midpoints (inradius z : ℝ) (sides : ℕ) (i : ℕ) (h : i < sides) :
    nth (spec_face_midpoints inradius z sides) i =
      ⟨inradius * Real.cos (2 * Real.pi * i / sides + Real.pi / sides),
       inradius * Real.sin (2 * Real.pi * i / sides + Real.pi / sides), z⟩ := by
  have hlen : i < ((List.range sides).map fun (i : ℕ) =>
      (⟨inradius * Real.cos (2 * Real.pi * i / sides + Real.pi / sides),
        inradius * Real.sin (2 * Real.pi * i / sides + Real.pi / sides), z⟩ : P3)).length := by
    simpa using h
  simp [nth, spec_face_midpoints, List.getD_eq_getElem?_getD, List.getElem?_eq_getElem hlen, h]

lemma sqrt5_lb : (2.2359 : ℝ) < Real.sqrt 5 := by
  rw [show (2.2359 : ℝ) = Real.sqrt (2.2359 ^ 2) from (Real.sqrt_sq (by norm_num)).symm]
  exact Real.sqrt_lt_sqrt (by norm_num) (by norm_num)

lemma sqrt5_ub : Real.sqrt 5 < 2.2361 := by
  rw [Real.sqrt_lt' (by norm_num)]
  norm_num

/-- At the default pentagon the apothem gap `|r_top 1 5 - r_bot 4 5|` is large. -/
lemma apothem_gap : |r_top 1 5 - r_bot 4 5| > 1e-5 := by
  have h5 : ((5 : ℕ) : ℝ) = 5 := by norm_num
  have hc : COS36 5 = (1 + Real.sqrt 5) / 4 := by
    rw [COS36, h5, Real.cos_pi_div_five]
  have hlb := sqrt5_lb
  rw [r_top, r_bot, hc]
  rw [abs_of_neg (by nlinarith)]
  nlinarith

lemma z_int_sides_two (f_bot_R f_top_R c_r : ℝ) : z_int f_bot_R f_top_R c_r 2 = -1 := by
  have h2 : ((2 : ℕ) : ℝ) = 2 := by norm_num
  have hc : COS36 2 = 0 := by rw [COS36, h2, Real.cos_pi_div_two]
  simp only [z_int, r_top, r_bot, hc, mul_zero, sub_self, abs_zero]
  rw [if_neg (by norm_num)]

lemma report_sides_two (f_bot_R f_top_R c_r : ℝ) :
    report f_bot_R f_top_R c_r 2 = Report.noSide := by
  rw [report, z_int_sides_two]
  exact if_neg (by rintro ⟨h, -⟩; norm_num at h)

/-! ### Claims -/

/-- Claim C3: whenever the derived apothems differ by at most `1e-5` (in
particular whenever the two circumradii coincide), the solver skips the
interpolation and returns the sentinel `-1`. -/
theorem c3_untapered_sentinel (f_bot_R f_top_R c_r : ℝ) (sides : ℕ)
    (hn : 3 ≤ sides) (hb : 0 < f_bot_R) (ht : 0 < f_top_R)
    (hgap : |r_top f_top_R sides - r_bot f_bot_R sides| ≤ 1e-5) :
    z_int f_bot_R f_top_R c_r sides = -1 := by
  simp only [z_int]
  rw [if_neg (not_lt.mpr hgap)]

theorem c3_witness : |r_top 1 5 - r_bot 1 5| ≤ 1e-5 ∧ z_int 1 1 2 5 = -1 := by
  have hgap : |r_top 1 5 - r_bot 1 5| ≤ 1e-5 := by
    simp only [r_top, r_bot, one_mul, sub_self, abs_zero]
    norm_num
  exact ⟨hgap, c3_untapered_sentinel 1 1 2 5 (by norm_num) (by norm_num) (by norm_num) hgap⟩

/-- Claim C5: above the taper threshold, solving at the bottom apothem gives
height `0` and solving at the top apothem gives the full height `f_h`. -/
theorem c5_boundary_identities (f_bot_R f_top_R : ℝ) (sides : ℕ)
    (hn : 3 ≤ sides) (hb : 0 < f_bot_R) (ht : 0 < f_top_R)
    (hgap : |r_top f_top_R sides - r_bot f_bot_R sides| > 1e-5) :
    z_int f_bot_R f_top_R (r_bot f_bot_R sides) sides = 0 ∧
    z_int f_bot_R f_top_R (r_top f_top_R sides) sides = f_h := by
  have hne : r_top f_top_R sides - r_bot f_bot_R sides ≠ 0 := by
    intro h0
    rw [h0, abs_zero] at hgap
    norm_num at hgap
  constructor
  · simp only [z_int]
    rw [if_pos hgap, sub_self, zero_mul]
  · simp only [z_int]
    rw [if_pos hgap]
    field_simp

theorem c5_witness :
    z_int 4 1 (r_bot 4 5) 5 = 0 ∧ z_int 4 1 (r_top 1 5) 5 = f_h :=
  c5_boundary_identities 4 1 5 (by norm_num) (by norm_num) (by norm_num) apothem_gap

/-- Claim C7 (counterexample): with a strictly positive but sub-threshold
apothem gap (`n = 4`, `Rb = 1`, `Rt = 1 + 1e-5`), the solver returns the
constant sentinel, so the solved height is not strictly increasing in the
cylinder radius. -/
theorem c7_counterexample :
    r_bot 1 4 < r_top (1 + 1e-5) 4 ∧
    ¬(z_int 1 (1 + 1e-5) 1 4 < z_int 1 (1 + 1e-5) 2 4) := by
  have h4 : ((4 : ℕ) : ℝ) = 4 := by norm_num
  have hc : COS36 4 = Real.sqrt 2 / 2 := by rw [COS36, h4, Real.cos_pi_div_four]
  have h2lb : (1 : ℝ) < Real.sqrt 2 := by
    rw [Real.lt_sqrt (by norm_num)]
    norm_num
  have h2ub : Real.sqrt 2 < 3 / 2 := by
    rw [Real.sqrt_lt' (by norm_num)]
    norm_num
  have hgap : |r_top (1 + 1e-5) 4 - r_bot 1 4| ≤ 1e-5 := by
    rw [r_top, r_bot, hc, abs_of_nonneg (by nlinarith)]
    nlinarith
  refine ⟨by rw [r_bot, r_top, hc]; nlinarith, ?_⟩
  have e1 : z_int 1 (1 + 1e-5) 1 4 = -1 := by
    simp only [z_int]
    rw [if_neg (not_lt.mpr hgap)]
  have e2 : z_int 1 (1 + 1e-5) 2 4 = -1 := by
    simp only [z_int]
    rw [if_neg (not_lt.mpr hgap)]
  rw [e1, e2]
  exact lt_irrefl _

/-- Claim C7 (amended): once the apothem gap exceeds the `1e-5` threshold,
the solved height is strictly increasing in the cylinder radius. -/
theorem c7_strict_mono (f_bot_R f_top_R c1 c2 : ℝ) (sides : ℕ)
    (hgap : r_top f_top_R sides - r_bot f_bot_R sides > 1e-5) (hc : c1 < c2) :
    z_int f_bot_R f_top_R c1 sides < z_int f_bot_R f_top_R c2 sides := by
  have habs : |r_top f_top_R sides - r_bot f_bot_R sides| > 1e-5 :=
    lt_of_lt_of_le hgap (le_abs_self _)
  have hd : 0 < r_top f_top_R sides - r_bot f_bot_R sides := by
    calc (0 : ℝ) < 1e-5 := by norm_num
    _ < _ := hgap
  simp only [z_int]
  rw [if_pos habs, if_pos habs]
  have hk : 0 < f_h / (r_top f_top_R sides - r_bot f_bot_R sides) := by
    apply div_pos _ hd
    rw [f_h]
    norm_num
  exact mul_lt_mul_of_pos_right (by linarith) hk

lemma taper_up_gap : r_top 4 5 - r_bot 1 5 > 1e-5 := by
  have h5 : ((5 : ℕ) : ℝ) = 5 := by norm_num
  have hcos : COS36 5 = (1 + Real.sqrt 5) / 4 := by rw [COS36, h5, Real.cos_pi_div_five]
  have hlb := sqrt5_lb
  rw [r_top, r_bot, hcos]
  nlinarith

theorem c7_witness : z_int 1 4 1 5 < z_int 1 4 2 5 :=
  c7_strict_mono 1 4 1 2 5 taper_up_gap (by norm_num)

/-- Claim C2 (counterexample): at `sides = 2`, an out-of-domain input, the
code does not fail; it runs the numeric path and reports the sentinel. -/
theorem c2_counterexample : z_int 4 1 2 2 = -1 ∧ report 4 1 2 2 = Report.noSide :=
  ⟨z_int_sides_two 4 1 2, report_sides_two 4 1 2⟩

/-- Claim C2 (amended): the core has no validation and no error path; every
input, in-domain or not, yields a numeric outcome.  In particular `sides = 2`
zeroes both apothems, so for all radii (positive or not) the solver returns
`-1` and the feedback is the "No Side Intersection" report. -/
theorem c2_no_validation (f_bot_R f_top_R c_r : ℝ) :
    z_int f_bot_R f_top_R c_r 2 = -1 ∧ report f_bot_R f_top_R c_r 2 = Report.noSide :=
  ⟨z_int_sides_two f_bot_R f_top_R c_r, report_sides_two f_bot_R f_top_R c_r⟩

lemma cos36_pentagon : COS36 5 = (1 + Real.sqrt 5) / 4 := by
  have h5 : ((5 : ℕ) : ℝ) = 5 := by norm_num
  rw [COS36, h5, Real.cos_pi_div_five]

/-- Wide glass on the default shade: the raw solve is negative. -/
lemma z_int_wide_glass_neg : z_int 4 1 6 5 < 0 := by
  have hlb := sqrt5_lb
  have hub := sqrt5_ub
  simp only [z_int]
  rw [if_pos apothem_gap, r_top, r_bot, cos36_pentagon, f_h]
  apply mul_neg_of_pos_of_neg
  · nlinarith
  · apply div_neg_of_pos_of_neg <;> nlinarith

lemma report_wide_glass : report 4 1 6 5 = Report.noSide := by
  rw [report]
  exact if_neg (by rintro ⟨h, -⟩; exact absurd h (not_le.mpr z_int_wide_glass_neg))

/-- Claim C4: above the taper threshold the solver reports the raw
interpolated height; validity is decided by `0 ≤ z_int ≤ f_h` on the
unclamped value, so a negative solve is reported as no intersection even
though the clamped display value would pass the same test. -/
theorem c4_unclamped_decision (f_bot_R f_top_R c_r : ℝ) (sides : ℕ)
    (hgap : |r_top f_top_R sides - r_bot f_bot_R sides| > 1e-5)
    (hneg : z_int f_bot_R f_top_R c_r sides < 0) :
    z_int f_bot_R f_top_R c_r sides =
      (c_r - r_bot f_bot_R sides) * (f_h / (r_top f_top_R sides - r_bot f_bot_R sides)) ∧
    report f_bot_R f_top_R c_r sides = Report.noSide ∧
    0 ≤ z_vis f_bot_R f_top_R c_r sides ∧ z_vis f_bot_R f_top_R c_r sides ≤ f_h := by
  refine ⟨?_, ?_, ?_, ?_⟩
  · simp only [z_int]
    rw [if_pos hgap]
  · rw [report]
    exact if_neg (by rintro ⟨h, -⟩; exact absurd h (not_le.mpr hneg))
  · rw [z_vis]
    exact le_min (le_max_right _ _) (by rw [f_h]; norm_num)
  · rw [z_vis]
    exact min_le_right _ _

theorem c4_witness :
    report 4 1 6 5 = Report.noSide ∧ 0 ≤ z_vis 4 1 6 5 ∧ z_vis 4 1 6 5 ≤ f_h :=
  (c4_unclamped_decision 4 1 6 5 apothem_gap z_int_wide_glass_neg).2

/-- Claim C10: the sentinel is the concrete value `-1`; being negative it
fails the same `0 ≤ z ≤ f_h` test that an out-of-range solve fails, so every
untapered input produces exactly the "No Side Intersection" report — the same
output as a tapered shade whose solve lands outside `[0, f_h]` (here the
wide-glass input `(4, 1, 6, 5)`), and no distinct sentinel reaches the
caller. -/
theorem c10_sentinel_collapse (f_bot_R f_top_R c_r : ℝ) (sides : ℕ)
    (hgap : |r_top f_top_R sides - r_bot f_bot_R sides| ≤ 1e-5) :
    z_int f_bot_R f_top_R c_r sides = -1 ∧
    z_int f_bot_R f_top_R c_r sides < 0 ∧
    report f_bot_R f_top_R c_r sides = Report.noSide ∧
    report f_bot_R f_top_R c_r sides = report 4 1 6 5 := by
  have hz : z_int f_bot_R f_top_R c_r sides = -1 := by
    simp only [z_int]
    rw [if_neg (not_lt.mpr hgap)]
  have hr : report f_bot_R f_top_R c_r sides = Report.noSide := by
    rw [report, hz]
    exact if_neg (by rintro ⟨h, -⟩; norm_num at h)
  exact ⟨hz, by rw [hz]; norm_num, hr, by rw [hr, report_wide_glass]⟩

theorem c10_witness :
    z_int 1 1 2 5 = -1 ∧ z_int 1 1 2 5 < 0 ∧
    report 1 1 2 5 = Report.noSide ∧ report 1 1 2 5 = report 4 1 6 5 :=
  c10_sentinel_collapse 1 1 2 5
    (by simp only [r_top, r_bot, one_mul, sub_self, abs_zero]; norm_num)

/-- Claim C9: the default pentagon scenario `n = 5`, `Rb = 4`, `Rt = 1`,
`H = 5`, glass radius `2`: the apothem factor is `cos (pi/5) = (1+√5)/4`,
the apothems are about `3.236` and `0.809`, and the solve lands at
`(30 - 10·√5)/3 ≈ 2.546`, inside `[0, 5]`, so a valid intersection is
reported with the solved height. -/
theorem c9_pentagon_default :
    COS36 5 = (1 + Real.sqrt 5) / 4 ∧
    |r_bot 4 5 - 3.236| < 1e-3 ∧
    |r_top 1 5 - 0.809| < 1e-3 ∧
    z_int 4 1 2 5 = (30 - 10 * Real.sqrt 5) / 3 ∧
    |z_int 4 1 2 5 - 2.546| < 1e-3 ∧
    0 ≤ z_int 4 1 2 5 ∧ z_int 4 1 2 5 ≤ f_h ∧
    report 4 1 2 5 = Report.intersection (z_int 4 1 2 5) := by
  have hlb := sqrt5_lb
  have hub := sqrt5_ub
  have hs : Real.sqrt 5 ^ 2 = 5 := Real.sq_sqrt (by norm_num)
  have hzval : z_int 4 1 2 5 = (30 - 10 * Real.sqrt 5) / 3 := by
    simp only [z_int]
    rw [if_pos apothem_gap, r_top, r_bot, cos36_pentagon, f_h]
    have hD : (1 : ℝ) * ((1 + Real.sqrt 5) / 4) - 4 * ((1 + Real.sqrt 5) / 4) =
        -(3 * (1 + Real.sqrt 5)) / 4 := by ring
    have hDne : (-(3 * (1 + Real.sqrt 5)) / 4 : ℝ) ≠ 0 := by
      have : (-(3 * (1 + Real.sqrt 5)) / 4 : ℝ) < 0 := by nlinarith
      exact ne_of_lt this
    rw [hD, ← mul_div_assoc, div_eq_div_iff hDne (by norm_num : (3 : ℝ) ≠ 0)]
    linear_combination (-15 / 2 : ℝ) * hs
  have h0 : 0 ≤ z_int 4 1 2 5 := by rw [hzval]; nlinarith
  have h1 : z_int 4 1 2 5 ≤ f_h := by rw [hzval, f_h]; nlinarith
  refine ⟨cos36_pentagon, ?_, ?_, hzval, ?_, h0, h1, ?_⟩
  · rw [r_bot, cos36_pentagon, abs_lt]
    constructor <;> nlinarith
  · rw [r_top, cos36_pentagon, abs_lt]
    constructor <;> nlinarith
  · rw [hzval, abs_lt]
    constructor <;> nlinarith
  · rw [report]
    exact if_pos ⟨h0, h1⟩

/-- Claim C8: the vertex ring has exactly `sides` points; point `i` is
`(r·cos(2·pi·i/n), r·sin(2·pi·i/n), z)` — equally spaced by `2·pi/n` starting
at angle 0 — and lies at Euclidean distance `r` from the axis point
`(0, 0, z)`. -/
theorem c8_ring_vertices (r z : ℝ) (sides : ℕ) (hn : 3 ≤ sides) (hr : 0 < r) :
    (get_face_vertices r z sides).length = sides ∧
    ∀ i, i < sides →
      nth (get_face_vertices r z sides) i =
        ⟨r * Real.cos (2 * Real.pi * i / sides), r * Real.sin (2 * Real.pi * i / sides), z⟩ ∧
      Real.sqrt (((nth (get_face_vertices r z sides) i).x - 0) ^ 2 +
        ((nth (get_face_vertices r z sides) i).y - 0) ^ 2 +
        ((nth (get_face_vertices r z sides) i).z - z) ^ 2) = r := by
  refine ⟨by simp [get_face_vertices], fun i hi => ⟨nth_get_face_vertices r z sides i hi, ?_⟩⟩
  rw [nth_get_face_vertices r z sides i hi]
  show Real.sqrt ((r * Real.cos (2 * Real.pi * i / sides) - 0) ^ 2 +
    (r * Real.sin (2 * Real.pi * i / sides) - 0) ^ 2 + (z - z) ^ 2) = r
  have harg : (r * Real.cos (2 * Real.pi * i / sides) - 0) ^ 2 +
      (r * Real.sin (2 * Real.pi * i / sides) - 0) ^ 2 + (z - z) ^ 2 = r ^ 2 := by
    have hpyth := Real.sin_sq_add_cos_sq (2 * Real.pi * i / sides)
    linear_combination r ^ 2 * hpyth
  rw [harg, Real.sqrt_sq hr.le]

theorem c8_witness : (get_face_vertices 1 0 3).length = 3 :=
  (c8_ring_vertices 1 0 3 (by norm_num) (by norm_num)).1

/-- Claim C6 (round trip): feeding the generated ring's edge length back into
`get_inradius` recovers the true apothem `r·cos(pi/n)` exactly (the model is
over the reals, so "within floating-point tolerance" becomes equality). -/
theorem c6_round_trip (r z : ℝ) (sides : ℕ) (hn : 3 ≤ sides) (hr : 0 < r) :
    get_inradius (ring_edge_len (get_face_vertices r z sides)) sides =
      r * Real.cos (Real.pi / sides) := by
  have hnpos : (0 : ℝ) < sides := by
    have : (3 : ℝ) ≤ sides := by exact_mod_cast hn
    linarith
  set x := Real.pi / (sides : ℝ) with hx
  have hxpos : 0 < x := div_pos Real.pi_pos hnpos
  have hn3 : (3 : ℝ) ≤ sides := by exact_mod_cast hn
  have hxlt : x < Real.pi / 2 := by
    rw [hx, div_lt_div_iff hnpos (by norm_num : (0 : ℝ) < 2)]
    nlinarith [Real.pi_pos]
  have hsin : 0 < Real.sin x :=
    Real.sin_pos_of_pos_of_lt_pi hxpos (by nlinarith [Real.pi_pos])
  have hcos : 0 < Real.cos x :=
    Real.cos_pos_of_mem_Ioo ⟨by nlinarith [Real.pi_pos], hxlt⟩
  have hlen : ring_edge_len (get_face_vertices r z sides) = 2 * r * Real.sin x := by
    rw [ring_edge_len, nth_get_face_vertices r z sides 0 (by omega),
      nth_get_face_vertices r z sides 1 (by omega)]
    show Real.sqrt ((r * Real.cos (2 * Real.pi * (0 : ℕ) / sides) -
        r * Real.cos (2 * Real.pi * (1 : ℕ) / sides)) ^ 2 +
      (r * Real.sin (2 * Real.pi * (0 : ℕ) / sides) -
        r * Real.sin (2 * Real.pi * (1 : ℕ) / sides)) ^ 2) = 2 * r * Real.sin x
    have e0 : 2 * Real.pi * ((0 : ℕ) : ℝ) / sides = 0 := by push_cast; ring
    have e1 : 2 * Real.pi * ((1 : ℕ) : ℝ) / sides = 2 * x := by push_cast; rw [hx]; ring
    rw [e0, e1, Real.cos_zero, Real.sin_zero]
    have harg : (r * 1 - r * Real.cos (2 * x)) ^ 2 + (r * 0 - r * Real.sin (2 * x)) ^ 2 =
        (2 * r * Real.sin x) ^ 2 := by
      have hc2 := Real.cos_two_mul x
      have hp := Real.sin_sq_add_cos_sq x
      have hp2 := Real.sin_sq_add_cos_sq (2 * x)
      linear_combination r ^ 2 * hp2 - 2 * r ^ 2 * hc2 - 4 * r ^ 2 * hp
    rw [harg, Real.sqrt_sq (by positivity)]
  rw [hlen, get_inradius, ← hx, Real.tan_eq_sin_div_cos]
  field_simp
  ring

theorem c6_witness :
    get_inradius (ring_edge_len (get_face_vertices 1 0 3)) 3 = 1 * Real.cos (Real.pi / 3) := by
  simpa using c6_round_trip 1 0 3 (by norm_num) (by norm_num)

/-- Claim C1: the code's midpoint generator applies the fixed phase `pi/5`
regardless of the side count.  At `sides = 4` its first point sits at angle
`pi/5` (x-coordinate `cos(pi/5) ≈ 0.809`), not on the perpendicular bisector
of the edge between vertices 0 and 1, which the spec's `pi/n` phase places at
angle `pi/4` (x-coordinate `cos(pi/4) ≈ 0.707`). -/
theorem c1_midpoint_phase_defect :
    nth (get_face_midpoints 1 0 4) 0 =
      ⟨Real.cos (Real.pi / 5), Real.sin (Real.pi / 5), 0⟩ ∧
    nth (get_face_midpoints 1 0 4) 0 ≠ nth (spec_face_midpoints 1 0 4) 0 := by
  have hcode : nth (get_face_midpoints 1 0 4) 0 =
      ⟨Real.cos (Real.pi / 5), Real.sin (Real.pi / 5), 0⟩ := by
    rw [nth_get_face_midpoints 1 0 4 0 (by norm_num)]
    norm_num
  have hspec : nth (spec_face_midpoints 1 0 4) 0 =
      ⟨Real.cos (Real.pi / 4), Real.sin (Real.pi / 4), 0⟩ := by
    rw [nth_spec_face_midpoints 1 0 4 0 (by norm_num)]
    norm_num
  refine ⟨hcode, ?_⟩
  rw [hcode, hspec]
  intro h
  have hxeq : Real.cos (Real.pi / 5) = Real.cos (Real.pi / 4) := congrArg P3.x h
  rw [Real.cos_pi_div_five, Real.cos_pi_div_four] at hxeq
  have hlb := sqrt5_lb
  have h2ub : Real.sqrt 2 < 3 / 2 := by
    rw [Real.sqrt_lt' (by norm_num)]
    norm_num
  linarith
